import Mathlib

/- Verification of the redisorm core mapper (src/redisorm/core.py) against its
specification.  The Python code is shallowly embedded: the redis client is an
explicit functional store, entities are maps from column names to values, and
every operation of the `Persistent` repository class is a pure state-passing
function.  The `types` module (the Type Adapter layer) is not under src/, so
adapters are modelled from the spec where noted. -/

namespace Redisorm

/-- Python values that flow through column fields: the null value `None`,
integers, and strings.  (Values of other runtime types play no role in the
claims under verification.) -/
inductive PyVal where
  | none : PyVal
  | int : Int → PyVal
  | str : String → PyVal
deriving DecidableEq

/-- Python truthiness of a value, as used by `obj.id or self.update_id(obj)`
in `Persistent.save`: `None`, `0` and the empty string are falsy. -/
def pyTruthy : PyVal → Bool
  | PyVal.none => false
  | PyVal.int n => decide (n ≠ 0)
  | PyVal.str s => decide (s ≠ "")

/-- Python `str()` of a value, as used by `obj.id = str(obj.id)` in
`Persistent.save`. -/
def pyToString : PyVal → String
  | PyVal.none => "None"
  | PyVal.int n => toString n
  | PyVal.str s => s

/-- Lexicographic comparison of character lists by code point, the order
Python uses to compare strings. -/
def lexLeB : List Char → List Char → Bool
  | [], _ => true
  | _ :: _, [] => false
  | a :: as, b :: bs => if a = b then lexLeB as bs else decide (a < b)

/-- Python string comparison `s <= t` (lexicographic by code point). -/
def pyStrLe (s t : String) : Bool := lexLeB s.data t.data

/-- Modelled from the spec: the repository imports a `types` module (the Type
Adapter layer) that is not under src/.  Following the spec, a type adapter
constructs a value from a stored string, serializes a value back to a
storable string, and reports whether its underlying type is orderable.
Wrapping and unwrapping are transparent to readers of an entity field
(`__getattribute__` unwraps), so the model works directly with raw values;
likewise, following the spec, a null column value is visible to `save` as
null. -/
structure Adapter where
  construct : String → PyVal
  serialize : PyVal → String
  orderable : Bool

/-- One declared column (`Column` in core.py): optional type adapter, default
value and primary-key flag.  A zero-argument factory default is
observationally a fixed value here, so defaults are plain values. -/
structure Column where
  type : Option Adapter
  default : PyVal
  primary_key : Bool

/-- An entity type: its class name, its declared columns in declaration order
(`_columns`) and the primary-key column name (`_primary_key`), as computed
once by `MetaPersistentData`. -/
structure Schema where
  name : String
  columns : List (String × Column)
  primary_key : Option String

/-- Facts `MetaPersistentData` guarantees about every usable entity type:
column names are unique, nonempty, never start with an underscore (attributes
starting with `_` are skipped by the metaclass) and are not the reserved name
`self`; an `id` column is declared (the repository reads and writes `obj.id`,
which on a `PersistentData` instance must be a declared column). -/
def Schema.WF (cls : Schema) : Prop :=
  (cls.columns.map Prod.fst).Nodup ∧
  (∀ c ∈ cls.columns.map Prod.fst, c ≠ "" ∧ c.data.head? ≠ some '_' ∧ c ≠ "self") ∧
  "id" ∈ cls.columns.map Prod.fst

/-- An entity instance: its current column values (`PersistentData` keeps
them in the instance dictionary; the adapter wrapping applied by `set_column`
is invisible through `__getattribute__`, so the model keeps raw values).
Attributes outside the schema are modelled as null. -/
structure Obj where
  vals : String → PyVal

/-- Writing one field through `set_column` (coercion through the adapter is
transparent on read, so the model stores the raw value). -/
def setVal (o : Obj) (c : String) (v : PyVal) : Obj :=
  Obj.mk (fun c' => if c' = c then v else o.vals c')

/-- Reading `obj.id`. -/
def Obj.id (o : Obj) : PyVal :=
  o.vals "id"

/-- Constructing an entity from keyword arguments, as
`PersistentData.__init__` does: a declared column takes the supplied value if
present, else its default. -/
def instantiate (cls : Schema) (kw : String → Option PyVal) : Obj :=
  Obj.mk (fun c =>
    match List.find? (fun e => e.fst == c) cls.columns with
    | some e => (kw c).getD e.snd.default
    | Option.none => PyVal.none)

/-- The backing redis store, split by the three kinds of keys the repository
uses: plain values (the identifier counters, written with `SET` as decimal
strings via `str()` and read back with `int()`, hence modelled directly as
integers), hashes (the stored records) and lists (the sorted indexes). -/
structure Store where
  kv : String → Option Int
  hash : String → String → Option String
  lst : String → List String

/-- Redis `HSET`. -/
def Store.hset (st : Store) (k f v : String) : Store :=
  Store.mk st.kv (fun k' f' => if k' = k ∧ f' = f then some v else st.hash k' f') st.lst

/-- Redis `HDEL`. -/
def Store.hdel (st : Store) (k f : String) : Store :=
  Store.mk st.kv (fun k' f' => if k' = k ∧ f' = f then Option.none else st.hash k' f') st.lst

/-- Redis `SET` of a counter value. -/
def Store.setKv (st : Store) (k : String) (n : Int) : Store :=
  Store.mk (fun k' => if k' = k then some n else st.kv k') st.hash st.lst

/-- Redis `RPUSH`. -/
def Store.rpush (st : Store) (k v : String) : Store :=
  Store.mk st.kv st.hash (fun k' => if k' = k then st.lst k' ++ [v] else st.lst k')

/-- Redis `DELETE` of a list key (used only on the sorted-index key). -/
def Store.delKey (st : Store) (k : String) : Store :=
  Store.mk st.kv st.hash (fun k' => if k' = k then [] else st.lst k')

/-- The store with nothing in it. -/
def emptyStore : Store :=
  Store.mk (fun _ => Option.none) (fun _ _ => Option.none) (fun _ => [])

/-- Tombstone field name (`DELETED` in core.py). -/
def DELETED : String := "__deleted__"

/-- Sorted-index key segment (`SORTED` in core.py). -/
def SORTED : String := "__sorted__"

/-- Repository configuration (`Persistent.__init__`): key prefix (`pfx`
models the `prefix` attribute), separator, and the identifier-counter segment
name. -/
structure Persistent where
  pfx : String
  key_separator : String
  id_count : String

/-- Key composition `self.key_separator.join([self.prefix, classname, seg])`. -/
def key (p : Persistent) (classname seg : String) : String :=
  String.intercalate p.key_separator [p.pfx, classname, seg]

/-- `get_last_insert_id`: `GET` of the counter key (`int()`-parsed; counter
values are only ever written with `str()`, so they are modelled as
integers). -/
def get_last_insert_id (p : Persistent) (classname : String) (st : Store) : Option Int :=
  st.kv (key p classname p.id_count)

/-- `set_id`: `SET` of the counter key to `str(id)`. -/
def set_id (p : Persistent) (classname : String) (n : Int) (st : Store) : Store :=
  st.setKv (key p classname p.id_count) n

/-- `get_max_id`: none when the counter key does not exist, else its value. -/
def get_max_id (p : Persistent) (cls : Schema) (st : Store) : Option Int :=
  if (st.kv (key p cls.name p.id_count)).isSome then st.kv (key p cls.name p.id_count)
  else Option.none

/-- `update_id`: an absent counter gives id 0, a counter holding `n` gives
`n + 1`; the new id is persisted as the counter and assigned to the
entity. -/
def update_id (p : Persistent) (cls : Schema) (o : Obj) (st : Store) : Obj × Store :=
  match get_last_insert_id p cls.name st with
  | some n => (setVal o "id" (PyVal.int (n + 1)), set_id p cls.name (n + 1) st)
  | Option.none => (setVal o "id" (PyVal.int 0), set_id p cls.name 0 st)

/-- Python comparison of two stored key values, as performed by
`sorted(kv, key=...)` inside `load_all`: strings compare lexicographically by
code point; any comparison involving `None` (an absent field) raises
`TypeError`, modelled as no result. -/
def cmpLe : Option String → Option String → Option Bool
  | some a, some b => some (pyStrLe a b)
  | _, _ => Option.none

/-- Stable insertion into an already sorted list: the new element, which
precedes in the original list every element already inserted, is placed
before the first element whose key is greater than or equal to its own.
Fails exactly when a comparison involves an absent key. -/
def insertSorted (keyFn : α → Option String) (x : α) : List α → Option (List α)
  | [] => some [x]
  | y :: ys =>
    match cmpLe (keyFn x) (keyFn y) with
    | some true => some (x :: y :: ys)
    | some false => (insertSorted keyFn x ys).map (fun r => y :: r)
    | Option.none => Option.none

/-- Model of Python `sorted(l, key=keyFn)`.  Python `sorted` is a stable
ascending sort and the output of a stable sort under a fixed key function is
unique, so stable insertion sort computes the same list; it fails exactly
when Python raises `TypeError`, namely when the list has at least two
elements and some key is absent. -/
def sortByKey (keyFn : α → Option String) : List α → Option (List α)
  | [] => some []
  | x :: xs => (sortByKey keyFn xs).bind (insertSorted keyFn x)

/-- Model of Python `enumerate`. -/
def enumFromN : Nat → List α → List (Nat × α)
  | _, [] => []
  | n, a :: as => (n, a) :: enumFromN (n + 1) as

/-- Truthiness of an `hget` result, as tested by `if r.hget(..., DELETED):`
in `Persistent.load`. -/
def hashTruthy : Option String → Bool
  | some s => decide (s ≠ "")
  | Option.none => false

/-- `Persistent.load`: a tombstoned record reads as not found (`None`);
otherwise the entity is rebuilt from the stored fields (each decoded through
its column adapter when one is declared, passed through raw otherwise, and
the reserved name `self` skipped), absent fields falling back to the column
defaults in the constructor. -/
def load (p : Persistent) (cls : Schema) (k : String) (st : Store) : Option Obj :=
  let rk := key p cls.name k
  if hashTruthy (st.hash rk DELETED) then Option.none
  else
    some (instantiate cls (fun c =>
      match st.hash rk c with
      | some v =>
        if c = "self" then Option.none
        else
          match List.find? (fun e => e.fst == c) cls.columns with
          | some e =>
            match e.snd.type with
            | some a => some (a.construct v)
            | Option.none => some (PyVal.str v)
          | Option.none => Option.none
      | Option.none => Option.none))

/-- Shared body of `load_all_only_keys` in the primary-key-ignoring case (the
recursive calls `load_all_only_keys(cls, key, ignore_primary_key=True)`
reduce to this scan): the raw stored field `k` of every id `0 .. max_id`, in
ascending id order (descending when `reverse` is set); nothing when no id was
ever issued. -/
def keysScan (p : Persistent) (cls : Schema) (k : String) (rev : Bool) (st : Store) :
    List (Option String) :=
  match get_max_id p cls st with
  | Option.none => []
  | some m =>
    let r := if rev then (List.range (m + 1).toNat).reverse else List.range (m + 1).toNat
    r.map (fun i => st.hash (key p cls.name (toString i)) k)

/-- `Persistent.load_all_only_keys`: with `ignore_primary_key` set, or no
primary key declared, the plain scan; otherwise both the primary-key column
and the requested column are read over all ids and the requested values are
yielded sorted by raw primary-key value (Python `sorted` keyed on the pair's
first component, which raises when an absent key is compared). -/
def load_all_only_keys (p : Persistent) (cls : Schema) (k : String) (rev ipk : Bool)
    (st : Store) : Option (List (Option String)) :=
  match ipk, cls.primary_key with
  | true, _ => some (keysScan p cls k rev st)
  | false, Option.none => some (keysScan p cls k rev st)
  | false, some pk =>
    let ks := keysScan p cls pk false st
    let vs := keysScan p cls k false st
    (sortByKey Prod.fst (ks.zip vs)).map (fun l => l.map Prod.snd)

/-- `Persistent.load_all`: nothing when no id was ever issued; with a primary
key, unless `ignore_primary_key` is set, the caller-supplied range and
`reverse` flag play no further role and loads are yielded for ids
`0 .. max_id` reordered by ascending raw stored primary-key value (Python
`sorted` keyed on the value, stable on id); otherwise loads are yielded over
the id range.  A `TypeError` escaping the sort is modelled as no result. -/
def load_all (p : Persistent) (cls : Schema) (rng : Option (List Int)) (rev ipk : Bool)
    (st : Store) : Option (List (Option Obj)) :=
  match get_max_id p cls st with
  | Option.none => some []
  | some m =>
    let r := rng.getD (if rev then (List.range (m + 1).toNat).reverse.map Int.ofNat
                       else (List.range (m + 1).toNat).map Int.ofNat)
    match cls.primary_key, ipk with
    | some pk, false =>
      match load_all_only_keys p cls pk false true st with
      | some ks =>
        match sortByKey Prod.snd (enumFromN 0 ks) with
        | some ps => some (ps.map (fun q => load p cls (toString q.fst) st))
        | Option.none => Option.none
      | Option.none => Option.none
    | _, _ => some (r.map (fun i => load p cls (toString i) st))

/-- Serialized form of one column value as written by `save`: through the
adapter when the column is typed, the raw value otherwise. -/
def serializeCol (col : Column) (v : PyVal) : String :=
  match col.type with
  | some a => a.serialize v
  | Option.none => pyToString v

/-- The per-column write loop of `Persistent.save`: a non-null value is
written (`HSET`) in serialized form, a null value's field is removed
(`HDEL`). -/
def saveColumns (rk : String) (cols : List (String × Column)) (o : Obj) (st : Store) :
    Store :=
  match cols with
  | [] => st
  | e :: rest =>
    let st' :=
      if o.vals e.fst = PyVal.none then st.hdel rk e.fst
      else st.hset rk e.fst (serializeCol e.snd (o.vals e.fst))
    saveColumns rk rest o st'

/-- Steps 1 and 2 of `Persistent.save`: `obj.id = obj.id or self.update_id(obj)`
(Python truthiness: a null, zero or empty id triggers assignment), then
`obj.id = str(obj.id)`, then the column write loop. -/
def saveRecord (p : Persistent) (cls : Schema) (o : Obj) (st : Store) : Obj × Store :=
  let step1 := if pyTruthy (Obj.id o) then (o, st) else update_id p cls o st
  let o2 := setVal step1.fst "id" (PyVal.str (pyToString (Obj.id step1.fst)))
  let rk := key p cls.name (pyToString (Obj.id step1.fst))
  (o2, saveColumns rk cls.columns o2 step1.snd)

/-- Result of one `save` call: the (mutated) entity, the store, and whether
the call ran to completion (`false` models an uncaught Python exception; the
store keeps every write made before the raise). -/
structure SaveResult where
  obj : Obj
  store : Store
  ok : Bool

/-- The `rpush` loop of the index rebuild in `save`: each loaded record's id
is appended; a tombstoned id loads as `None`, and `None.id` raises
`AttributeError`, aborting the loop. -/
def rebuildPush (skey : String) : List (Option Obj) → Store → Store × Bool
  | [], st => (st, true)
  | Option.none :: _, st => (st, false)
  | some it :: rest, st => rebuildPush skey rest (st.rpush skey (pyToString (Obj.id it)))

/-- `Persistent.save`: write the record (`saveRecord`); when the type
declares a primary key, clear the sorted-index list and repopulate it from
`load_all` in ascending raw stored primary-key order. -/
def save (p : Persistent) (cls : Schema) (o : Obj) (st : Store) : SaveResult :=
  let r1 := saveRecord p cls o st
  match cls.primary_key with
  | Option.none => SaveResult.mk r1.fst r1.snd true
  | some _ =>
    let skey := key p cls.name SORTED
    let st3 := r1.snd.delKey skey
    match load_all p cls Option.none false false st3 with
    | some items =>
      let r2 := rebuildPush skey items st3
      SaveResult.mk r1.fst r2.fst r2.snd
    | Option.none => SaveResult.mk r1.fst st3 false

/-- `Persistent.delete`: not deletable without an id (`False`, a no-op);
otherwise the tombstone field of the stored record is set to `"1"`. -/
def delete (p : Persistent) (cls : Schema) (o : Obj) (st : Store) : Store × Bool :=
  if Obj.id o = PyVal.none then (st, false)
  else (st.hset (key p cls.name (pyToString (Obj.id o))) DELETED "1", true)

/-- The scan loop of `find_by`, over the `fuel` ids starting at `i`. -/
def findByScan (p : Persistent) (cls : Schema) (c v : String) (st : Store) :
    Nat → Nat → Option Obj
  | _, 0 => Option.none
  | i, fuel + 1 =>
    if st.hash (key p cls.name (toString i)) c = some v then load p cls (toString i) st
    else findByScan p cls c v st (i + 1) fuel

/-- `Persistent.find_by`: scan ids `0 .. max_id` and return the load of the
first id whose raw stored field `c` equals `v`; not found (`None`) when the
counter is absent or no id matches. -/
def find_by (p : Persistent) (cls : Schema) (c v : String) (st : Store) : Option Obj :=
  match get_max_id p cls st with
  | Option.none => Option.none
  | some m => findByScan p cls c v st 0 (m + 1).toNat

/-- The order established by the primary-key sort inside `load_all`: raw key
values present and non-decreasing, with ties strictly increasing on the
enumeration index (the record id), i.e. the stable tie-break. -/
def goodPair (q r : Nat × Option String) : Prop :=
  (∃ a b, q.snd = some a ∧ r.snd = some b ∧ pyStrLe a b = true) ∧
  (q.snd = r.snd → q.fst < r.fst)

/-- The string pushed onto the sorted index for id `i`: the loaded record's
id value under `str()` (empty when the record loads as not found; the rebuild
raises before pushing in that case). -/
def loadedIdStr (p : Persistent) (cls : Schema) (st : Store) (i : Nat) : String :=
  match load p cls (toString i) st with
  | some it => pyToString (Obj.id it)
  | Option.none => ""

/-- The id the next fresh save will receive: 0 with no counter, `n + 1` when
the counter holds `n`. -/
def nextIdInt (p : Persistent) (cls : Schema) (st : Store) : Int :=
  match get_last_insert_id p cls.name st with
  | some n => n + 1
  | Option.none => 0

/-- The id values `k, k+1, ..., k+n-1` in their saved (string) form. -/
def idsFrom (k : Int) : Nat → List PyVal
  | 0 => []
  | n + 1 => PyVal.str (toString k) :: idsFrom (k + 1) n

/-- One repository call in a saves-and-deletes sequence: `saveNew o` saves
`o` as a fresh entity (id unset), `del o` deletes `o`. -/
inductive Op where
  | saveNew : Obj → Op
  | del : Obj → Op

/-- Number of saves in a sequence of operations. -/
def countSaves : List Op → Nat
  | [] => 0
  | Op.saveNew _ :: rest => countSaves rest + 1
  | Op.del _ :: rest => countSaves rest

/-- Run a sequence of saves (on fresh entities) and deletes, collecting the
id each save assigns. -/
def execOps (p : Persistent) (cls : Schema) : List Op → Store → List PyVal × Store
  | [], st => ([], st)
  | Op.saveNew o :: rest, st =>
    let r := save p cls (setVal o "id" PyVal.none) st
    let t := execOps p cls rest r.store
    (r.obj.vals "id" :: t.fst, t.snd)
  | Op.del o :: rest, st => execOps p cls rest (delete p cls o st).fst

/-- Whether a list of values consists of integers in non-decreasing order
(used to state the ordering the spec claims for integer primary keys). -/
def intLeChain : List PyVal → Bool
  | [] => true
  | [_] => true
  | a :: b :: rest =>
    (match a, b with
     | PyVal.int x, PyVal.int y => decide (x ≤ y)
     | _, _ => false) && intLeChain (b :: rest)

/-- Decimal digit value of a character. -/
def digitVal (c : Char) : Option Nat :=
  if '0' ≤ c ∧ c ≤ '9' then some (c.toNat - '0'.toNat) else Option.none

/-- Accumulating decimal parse of a character list. -/
def parseDigitsAux : List Char → Nat → Option Nat
  | [], acc => some acc
  | c :: cs, acc =>
    match digitVal c with
    | some d => parseDigitsAux cs (acc * 10 + d)
    | Option.none => Option.none

/-- Python `int()` on a decimal string (no result models `ValueError`). -/
def pyInt (s : String) : Option Int :=
  match s.data with
  | [] => Option.none
  | '-' :: [] => Option.none
  | '-' :: c :: cs => (parseDigitsAux (c :: cs) 0).map (fun n => -(Int.ofNat n))
  | cs => (parseDigitsAux cs 0).map Int.ofNat

/-- Modelled from the spec: an integer type adapter (orderable), constructing
from the stored decimal string and serializing with `str()`.  The `types`
module that defines the concrete adapters is not under src/; spec section 8
works through an integer-keyed example. -/
def intAdapter : Adapter :=
  Adapter.mk (fun s => PyVal.int ((pyInt s).getD 0)) pyToString true

/-- Modelled from the spec: a plain string type adapter (orderable),
constructing the stored string itself. -/
def strAdapter : Adapter :=
  Adapter.mk (fun s => PyVal.str s) pyToString true

/-- Repository used by the concrete checks. -/
def exP : Persistent := Persistent.mk "app" ":" "__latest__"

/-- Entity type with an orderable integer primary key `age`. -/
def User : Schema :=
  Schema.mk "User"
    [("id", Column.mk (some intAdapter) PyVal.none false),
     ("age", Column.mk (some intAdapter) PyVal.none true)]
    (some "age")

/-- Entity type with string columns and no primary key. -/
def Item : Schema :=
  Schema.mk "Item"
    [("id", Column.mk (some strAdapter) PyVal.none false),
     ("name", Column.mk (some strAdapter) PyVal.none false)]
    Option.none

/-- A fresh `User` with `age` 9 (id unset). -/
def u9 : Obj := Obj.mk (fun c => if c = "age" then PyVal.int 9 else PyVal.none)

/-- A fresh `User` with `age` 10 (id unset). -/
def u10 : Obj := Obj.mk (fun c => if c = "age" then PyVal.int 10 else PyVal.none)

/-- A fresh `Item` with `name` `"x"` (id unset). -/
def ia : Obj := Obj.mk (fun c => if c = "name" then PyVal.str "x" else PyVal.none)

/-- First concrete save: `u9` into the empty store (id `"0"`). -/
def exSave1 : SaveResult := save exP User u9 emptyStore

/-- Store after the first concrete save. -/
def exSt1 : Store := exSave1.store

/-- Second concrete save: `u10` (id `"1"`). -/
def exSave2 : SaveResult := save exP User u10 exSt1

/-- Store after both concrete saves. -/
def exSt2 : Store := exSave2.store

/-- The sequence `load_all` yields on the two-record `User` store. -/
def exL : List (Option Obj) := (load_all exP User Option.none false false exSt2).getD []

/-- Decoded primary-key values, in order, of the records the sorted index of
`User` names in a store. -/
def idxAges (st : Store) : List PyVal :=
  (st.lst (key exP "User" SORTED)).map
    (fun i => intAdapter.construct ((st.hash (key exP "User" i) "age").getD ""))

/-- The `age` value of one yielded `load_all` element. -/
def ageVal : Option Obj → PyVal
  | some r => r.vals "age"
  | Option.none => PyVal.none

/-- Save `ia` into the empty store (it receives id `"0"`). -/
def itemSave1 : SaveResult := save exP Item ia emptyStore

/-- Store after deleting the saved `Item` record `"0"`. -/
def itemDelSt : Store := (delete exP Item itemSave1.obj itemSave1.store).fst

/-- Re-save of the deleted entity (same id `"0"`). -/
def itemResave : SaveResult := save exP Item itemSave1.obj itemDelSt

/-- Save of a second fresh `Item` with the same `name` (it receives id
`"1"`) after record `"0"` was tombstoned. -/
def itemSave2 : SaveResult := save exP Item ia itemDelSt

/-- An `Item` whose id is the integer 0 -- non-null but falsy. -/
def oZero : Obj :=
  Obj.mk (fun c =>
    if c = "id" then PyVal.int 0
    else if c = "name" then PyVal.str "a" else PyVal.none)

/-- A store whose `Item` identifier counter holds 5. -/
def stCounter5 : Store := set_id exP "Item" 5 emptyStore

/-- An `Item` with every column null. -/
def oAllNull : Obj := Obj.mk (fun _ => PyVal.none)

/-! Order properties of the Python string comparison. -/

theorem lexLeB_refl (l : List Char) : lexLeB l l = true := by
  induction l with
  | nil => rfl
  | cons a as ih => simp [lexLeB, ih]

theorem lexLeB_total (l1 l2 : List Char) (h : lexLeB l1 l2 = false) :
    lexLeB l2 l1 = true := by
  induction l1 generalizing l2 with
  | nil => simp [lexLeB] at h
  | cons a as ih =>
    cases l2 with
    | nil => rfl
    | cons b bs =>
      by_cases hab : a = b
      · subst hab
        simp only [lexLeB, if_pos rfl] at h ⊢
        exact ih bs h
      · simp only [lexLeB, if_neg hab, decide_eq_false_iff_not] at h
        have hba : b < a := by
          rcases lt_trichotomy a b with h3 | h3 | h3
          · exact absurd h3 h
          · exact absurd h3 hab
          · exact h3
        simp [lexLeB, if_neg (Ne.symm hab), hba]

theorem lexLeB_trans (l1 l2 l3 : List Char) (h1 : lexLeB l1 l2 = true)
    (h2 : lexLeB l2 l3 = true) : lexLeB l1 l3 = true := by
  induction l1 generalizing l2 l3 with
  | nil => rfl
  | cons a as ih =>
    cases l2 with
    | nil => simp [lexLeB] at h1
    | cons b bs =>
      cases l3 with
      | nil => simp [lexLeB] at h2
      | cons c cs =>
        by_cases hab : a = b
        · subst hab
          by_cases hac : a = c
          · subst hac
            simp only [lexLeB, if_pos rfl] at h1 h2 ⊢
            exact ih bs cs h1 h2
          · simp only [lexLeB, if_pos rfl] at h1
            simp only [lexLeB, if_neg hac] at h2 ⊢
            exact h2
        · by_cases hbc : b = c
          · subst hbc
            simp only [lexLeB, if_neg hab] at h1 ⊢
            exact h1
          · simp only [lexLeB, if_neg hab, decide_eq_true_eq] at h1
            simp only [lexLeB, if_neg hbc, decide_eq_true_eq] at h2
            have hac : a < c := lt_trans h1 h2
            simp [lexLeB, if_neg (ne_of_lt hac), hac]

theorem pyStrLe_refl (s : String) : pyStrLe s s = true := lexLeB_refl s.data

theorem pyStrLe_total (s t : String) (h : pyStrLe s t = false) : pyStrLe t s = true :=
  lexLeB_total s.data t.data h

theorem pyStrLe_trans (s t u : String) (h1 : pyStrLe s t = true)
    (h2 : pyStrLe t u = true) : pyStrLe s u = true :=
  lexLeB_trans s.data t.data u.data h1 h2

/-! Properties of the stable sort model. -/

theorem cmpLe_some {u v : Option String} {bv : Bool} (h : cmpLe u v = some bv) :
    ∃ a b, u = some a ∧ v = some b ∧ pyStrLe a b = bv := by
  cases u with
  | none => simp [cmpLe] at h
  | some a =>
    cases v with
    | none => simp [cmpLe] at h
    | some b =>
      simp only [cmpLe, Option.some.injEq] at h
      exact ⟨a, b, rfl, rfl, h⟩

theorem insertSorted_perm (x : Nat × Option String) :
    ∀ l r, insertSorted Prod.snd x l = some r → List.Perm r (x :: l) := by
  intro l
  induction l with
  | nil =>
    intro r h
    simp only [insertSorted, Option.some.injEq] at h
    subst h
    exact List.Perm.refl _
  | cons y ys ih =>
    intro r h
    rw [insertSorted] at h
    cases hc : cmpLe x.snd y.snd with
    | none => rw [hc] at h; cases h
    | some b =>
      rw [hc] at h
      cases b with
      | true =>
        simp only [Option.some.injEq] at h
        subst h
        exact List.Perm.refl _
      | false =>
        cases hr : insertSorted Prod.snd x ys with
        | none => rw [hr] at h; cases h
        | some r' =>
          rw [hr] at h
          simp only [Option.map_some', Option.some.injEq] at h
          subst h
          exact ((ih r' hr).cons y).trans (List.Perm.swap x y ys)

theorem insertSorted_pairwise (x : Nat × Option String) :
    ∀ l r, insertSorted Prod.snd x l = some r → List.Pairwise goodPair l →
      (∀ y ∈ l, x.fst < y.fst) → List.Pairwise goodPair r := by
  intro l
  induction l with
  | nil =>
    intro r h _ _
    simp only [insertSorted, Option.some.injEq] at h
    subst h
    exact List.pairwise_singleton _ _
  | cons y ys ih =>
    intro r h hp hlt
    rw [insertSorted] at h
    cases hc : cmpLe x.snd y.snd with
    | none => rw [hc] at h; cases h
    | some b =>
      rw [hc] at h
      cases b with
      | true =>
        simp only [Option.some.injEq] at h
        subst h
        obtain ⟨a, bb, hxa, hyb, hab⟩ := cmpLe_some hc
        refine List.Pairwise.cons ?_ hp
        intro z hz
        rcases List.mem_cons.mp hz with hz1 | hz1
        · rw [hz1]
          exact ⟨⟨a, bb, hxa, hyb, hab⟩, fun _ => hlt y (List.mem_cons_self y ys)⟩
        · have hyz := (List.pairwise_cons.mp hp).1 z hz1
          obtain ⟨⟨b', cc, hyb', hzc, hbc⟩, _⟩ := hyz
          have hbb : pyStrLe a b' = true := by
            rw [hyb] at hyb'
            rw [← Option.some.inj hyb']
            exact hab
          exact ⟨⟨a, cc, hxa, hzc, pyStrLe_trans a b' cc hbb hbc⟩,
            fun _ => hlt z (List.mem_cons_of_mem y hz1)⟩
      | false =>
        cases hr : insertSorted Prod.snd x ys with
        | none => rw [hr] at h; cases h
        | some r' =>
          rw [hr] at h
          simp only [Option.map_some', Option.some.injEq] at h
          subst h
          obtain ⟨a, bb, hxa, hyb, hab⟩ := cmpLe_some hc
          have hp' := List.pairwise_cons.mp hp
          refine List.Pairwise.cons ?_ (ih r' hr hp'.2
            (fun z hz => hlt z (List.mem_cons_of_mem y hz)))
          intro z hz
          have hz2 : z ∈ x :: ys := (insertSorted_perm x ys r' hr).mem_iff.mp hz
          rcases List.mem_cons.mp hz2 with hz3 | hz3
          · rw [hz3]
            refine ⟨⟨bb, a, hyb, hxa, pyStrLe_total a bb hab⟩, fun he => ?_⟩
            rw [hxa, hyb] at he
            have hba : bb = a := Option.some.inj he
            rw [hba, pyStrLe_refl a] at hab
            exact Bool.noConfusion hab
          · exact hp'.1 z hz3

theorem sortByKey_perm (l : List (Nat × Option String)) :
    ∀ r, sortByKey Prod.snd l = some r → List.Perm r l := by
  induction l with
  | nil =>
    intro r h
    simp only [sortByKey, Option.some.injEq] at h
    subst h
    exact List.Perm.refl _
  | cons x xs ih =>
    intro r h
    rw [sortByKey] at h
    cases h0 : sortByKey Prod.snd xs with
    | none => rw [h0] at h; cases h
    | some r0 =>
      rw [h0] at h
      simp only [Option.some_bind] at h
      exact (insertSorted_perm x r0 r h).trans ((ih r0 h0).cons x)

theorem sortByKey_pairwise (l : List (Nat × Option String)) :
    ∀ r, sortByKey Prod.snd l = some r →
      List.Pairwise (fun q q' => q.fst < q'.fst) l → List.Pairwise goodPair r := by
  induction l with
  | nil =>
    intro r h _
    simp only [sortByKey, Option.some.injEq] at h
    subst h
    exact List.Pairwise.nil
  | cons x xs ih =>
    intro r h hp
    rw [sortByKey] at h
    cases h0 : sortByKey Prod.snd xs with
    | none => rw [h0] at h; cases h
    | some r0 =>
      rw [h0] at h
      simp only [Option.some_bind] at h
      have hp' := List.pairwise_cons.mp hp
      refine insertSorted_pairwise x r0 r h (ih r0 h0 hp'.2) ?_
      intro y hy
      exact hp'.1 y ((sortByKey_perm xs r0 h0).mem_iff.mp hy)

/-! Properties of the enumeration model. -/

theorem enumFromN_mem_le (n : Nat) (l : List α) :
    ∀ q ∈ enumFromN n l, n ≤ q.fst := by
  induction l generalizing n with
  | nil => intro q hq; cases hq
  | cons a as ih =>
    intro q hq
    rcases List.mem_cons.mp hq with hq1 | hq1
    · rw [hq1]
    · exact Nat.le_of_succ_le (ih (n + 1) q hq1)

theorem enumFromN_pairwise (n : Nat) (l : List α) :
    List.Pairwise (fun q q' => q.fst < q'.fst) (enumFromN n l) := by
  induction l generalizing n with
  | nil => exact List.Pairwise.nil
  | cons a as ih =>
    refine List.Pairwise.cons ?_ (ih (n + 1))
    intro q hq
    exact Nat.lt_of_succ_le (enumFromN_mem_le (n + 1) as q hq)

theorem enumFromN_map_fst (n : Nat) (l : List α) :
    (enumFromN n l).map Prod.fst = List.range' n l.length := by
  induction l generalizing n with
  | nil => rfl
  | cons a as ih =>
    show (n, a).fst :: (enumFromN (n + 1) as).map Prod.fst = List.range' n (as.length + 1)
    rw [ih (n + 1)]
    rfl

/-! Frame lemmas: which parts of the store each operation can touch. -/

theorem saveColumns_kv (rk : String) (cols : List (String × Column)) (o : Obj) :
    ∀ st, (saveColumns rk cols o st).kv = st.kv := by
  induction cols with
  | nil => intro st; rfl
  | cons e rest ih =>
    intro st
    simp only [saveColumns]
    by_cases h : o.vals e.fst = PyVal.none
    · rw [if_pos h]; exact ih _
    · rw [if_neg h]; exact ih _

theorem saveColumns_lst (rk : String) (cols : List (String × Column)) (o : Obj) :
    ∀ st, (saveColumns rk cols o st).lst = st.lst := by
  induction cols with
  | nil => intro st; rfl
  | cons e rest ih =>
    intro st
    simp only [saveColumns]
    by_cases h : o.vals e.fst = PyVal.none
    · rw [if_pos h]; exact ih _
    · rw [if_neg h]; exact ih _

theorem rebuildPush_kv (skey : String) :
    ∀ items st, (rebuildPush skey items st).fst.kv = st.kv := by
  intro items
  induction items with
  | nil => intro st; rfl
  | cons it rest ih =>
    intro st
    cases it with
    | none => rfl
    | some obj => exact ih _

theorem rebuildPush_hash (skey : String) :
    ∀ items st, (rebuildPush skey items st).fst.hash = st.hash := by
  intro items
  induction items with
  | nil => intro st; rfl
  | cons it rest ih =>
    intro st
    cases it with
    | none => rfl
    | some obj => exact ih _

theorem save_obj_eq (p : Persistent) (cls : Schema) (o : Obj) (st : Store) :
    (save p cls o st).obj = (saveRecord p cls o st).fst := by
  simp only [save]
  split
  · rfl
  · split
    · rfl
    · rfl

theorem save_kv_eq (p : Persistent) (cls : Schema) (o : Obj) (st : Store) :
    (save p cls o st).store.kv = (saveRecord p cls o st).snd.kv := by
  simp only [save]
  split
  · rfl
  · split
    · exact rebuildPush_kv _ _ _
    · rfl

theorem save_hash_eq (p : Persistent) (cls : Schema) (o : Obj) (st : Store) :
    (save p cls o st).store.hash = (saveRecord p cls o st).snd.hash := by
  simp only [save]
  split
  · rfl
  · split
    · exact rebuildPush_hash _ _ _
    · rfl

theorem delete_kv (p : Persistent) (cls : Schema) (o : Obj) (st : Store) :
    (delete p cls o st).fst.kv = st.kv := by
  rw [delete]
  split
  · rfl
  · rfl

theorem load_delKey (p : Persistent) (cls : Schema) (k kk : String) (st : Store) :
    load p cls k (st.delKey kk) = load p cls k st := rfl

theorem load_all_delKey (p : Persistent) (cls : Schema) (rng : Option (List Int))
    (rev ipk : Bool) (kk : String) (st : Store) :
    load_all p cls rng rev ipk (st.delKey kk) = load_all p cls rng rev ipk st := rfl

/-! Looking up a column in a well-formed schema. -/

theorem find?_eq_of_nodup :
    ∀ cols : List (String × Column), (cols.map Prod.fst).Nodup →
      ∀ e ∈ cols, List.find? (fun x => x.fst == e.fst) cols = some e := by
  intro cols
  induction cols with
  | nil => intro _ e he; cases he
  | cons f rest ih =>
    intro hnd e he
    have hnd' := List.nodup_cons.mp hnd
    rcases List.mem_cons.mp he with h1 | h1
    · rw [h1]
      simp [List.find?]
    · have hne : (f.fst == e.fst) = false := by
        apply beq_eq_false_iff_ne.mpr
        intro hcontra
        exact hnd'.1 (by rw [hcontra]; exact List.mem_map_of_mem Prod.fst h1)
      rw [List.find?_cons, hne]
      exact ih hnd'.2 e h1

/-! What the column write loop leaves in the record hash. -/

theorem saveColumns_hash_not_mem (rk : String) (o : Obj) (f : String) :
    ∀ cols : List (String × Column), f ∉ cols.map Prod.fst →
      ∀ st k, (saveColumns rk cols o st).hash k f = st.hash k f := by
  intro cols
  induction cols with
  | nil => intro _ st k; rfl
  | cons e rest ih =>
    intro hf st k
    have hf' : f ∉ rest.map Prod.fst := fun h => hf (List.mem_cons_of_mem _ h)
    have hfe : f ≠ e.fst := fun h => hf (by rw [h]; exact List.mem_cons_self _ _)
    simp only [saveColumns]
    by_cases h : o.vals e.fst = PyVal.none
    · rw [if_pos h, ih hf' _ k]
      exact if_neg (fun hh => hfe hh.2)
    · rw [if_neg h, ih hf' _ k]
      exact if_neg (fun hh => hfe hh.2)

theorem saveColumns_hash_mem (rk : String) (o : Obj) :
    ∀ cols : List (String × Column), (cols.map Prod.fst).Nodup →
      ∀ e ∈ cols, ∀ st,
        (saveColumns rk cols o st).hash rk e.fst =
          (if o.vals e.fst = PyVal.none then Option.none
           else some (serializeCol e.snd (o.vals e.fst))) := by
  intro cols
  induction cols with
  | nil => intro _ e he; cases he
  | cons f rest ih =>
    intro hnd e he st
    have hnd' := List.nodup_cons.mp hnd
    rcases List.mem_cons.mp he with h1 | h1
    · rw [h1]
      simp only [saveColumns]
      by_cases h : o.vals f.fst = PyVal.none
      · rw [if_pos h, saveColumns_hash_not_mem rk o f.fst rest hnd'.1 _ rk, if_pos h]
        exact if_pos ⟨rfl, rfl⟩
      · rw [if_neg h, saveColumns_hash_not_mem rk o f.fst rest hnd'.1 _ rk, if_neg h]
        exact if_pos ⟨rfl, rfl⟩
    · simp only [saveColumns]
      exact ih hnd'.2 e h1 _

/-! The rebuild loop and its entries. -/

theorem rebuildPush_ok (skey : String) :
    ∀ items st st2, rebuildPush skey items st = (st2, true) →
      ∃ objs : List Obj, items = objs.map some ∧
        st2.lst skey = st.lst skey ++ objs.map (fun it => pyToString (Obj.id it)) := by
  intro items
  induction items with
  | nil =>
    intro st st2 h
    simp only [rebuildPush, Prod.mk.injEq] at h
    refine ⟨[], rfl, ?_⟩
    rw [← h.1]
    simp
  | cons it rest ih =>
    intro st st2 h
    cases it with
    | none =>
      rw [rebuildPush] at h
      simp only [Prod.mk.injEq] at h
      exact absurd h.2 (by simp)
    | some obj =>
      rw [rebuildPush] at h
      obtain ⟨objs, h1, h2⟩ := ih _ _ h
      refine ⟨obj :: objs, by rw [List.map_cons, h1], ?_⟩
      rw [h2]
      simp [Store.rpush]

theorem map_load_entries (p : Persistent) (cls : Schema) (st : Store) :
    ∀ ps : List (Nat × Option String), ∀ objs : List Obj,
      ps.map (fun q => load p cls (toString q.fst) st) = objs.map some →
      objs.map (fun it => pyToString (Obj.id it)) =
        ps.map (fun q => loadedIdStr p cls st q.fst) := by
  intro ps
  induction ps with
  | nil =>
    intro objs h
    cases objs with
    | nil => rfl
    | cons ob obs => simp at h
  | cons q qs ih =>
    intro objs h
    cases objs with
    | nil => simp at h
    | cons ob obs =>
      simp only [List.map_cons, List.cons.injEq] at h
      rw [List.map_cons, List.map_cons, ih obs h.2]
      have hload : loadedIdStr p cls st q.fst = pyToString (Obj.id ob) := by
        simp [loadedIdStr, h.1]
      rw [hload]

theorem keysScan_length (p : Persistent) (cls : Schema) (k : String) (st : Store) (m : Int)
    (hm : get_max_id p cls st = some m) :
    (keysScan p cls k false st).length = (m + 1).toNat := by
  simp [keysScan, hm]

theorem delKey_lst_self (st : Store) (k : String) : (st.delKey k).lst k = [] := by
  simp [Store.delKey]

/-! What a fresh save assigns. -/

theorem save_fresh_id (p : Persistent) (cls : Schema) (o : Obj) (st : Store)
    (h : Obj.id o = PyVal.none) :
    (save p cls o st).obj.vals "id" = PyVal.str (toString (nextIdInt p cls st)) ∧
    get_last_insert_id p cls.name (save p cls o st).store =
      some (nextIdInt p cls st) := by
  have hcond : ¬ (pyTruthy (Obj.id o) = true) := by
    rw [h]
    simp [pyTruthy]
  constructor
  · rw [save_obj_eq]
    simp only [saveRecord, if_neg hcond]
    cases hc : get_last_insert_id p cls.name st with
    | none => simp [update_id, hc, nextIdInt, setVal, Obj.id, pyToString]
    | some n => simp [update_id, hc, nextIdInt, setVal, Obj.id, pyToString]
  · rw [get_last_insert_id, save_kv_eq]
    simp only [saveRecord, if_neg hcond]
    rw [saveColumns_kv]
    cases hc : get_last_insert_id p cls.name st with
    | none =>
      have hc' : st.kv (key p cls.name p.id_count) = Option.none := hc
      simp [update_id, hc, hc', nextIdInt, set_id, Store.setKv, get_last_insert_id]
    | some n =>
      have hc' : st.kv (key p cls.name p.id_count) = some n := hc
      simp [update_id, hc, hc', nextIdInt, set_id, Store.setKv, get_last_insert_id]

/-! The record hash after a save, field by field. -/

theorem save_hash_fields (p : Persistent) (cls : Schema) (o : Obj) (st : Store)
    (hnd : (cls.columns.map Prod.fst).Nodup) :
    ∀ e ∈ cls.columns,
      (save p cls o st).store.hash
          (key p cls.name (pyToString (Obj.id (save p cls o st).obj))) e.fst =
        (if (save p cls o st).obj.vals e.fst = PyVal.none then Option.none
         else some (serializeCol e.snd ((save p cls o st).obj.vals e.fst))) := by
  intro e he
  rw [save_hash_eq, save_obj_eq]
  exact saveColumns_hash_mem _ _ cls.columns hnd e he _

/-! Reading an entity rebuilt by the constructor. -/

theorem instantiate_vals (cls : Schema) (kw : String → Option PyVal) (e : String × Column)
    (hnd : (cls.columns.map Prod.fst).Nodup) (he : e ∈ cls.columns) :
    (instantiate cls kw).vals e.fst = (kw e.fst).getD e.snd.default := by
  simp only [instantiate]
  rw [find?_eq_of_nodup cls.columns hnd e he]

theorem load_some (p : Persistent) (cls : Schema) (k : String) (st : Store)
    (ht : hashTruthy (st.hash (key p cls.name k) DELETED) = false) :
    load p cls k st = some (instantiate cls (fun c =>
      match st.hash (key p cls.name k) c with
      | some v =>
        if c = "self" then Option.none
        else
          match List.find? (fun x => x.fst == c) cls.columns with
          | some e =>
            match e.snd.type with
            | some a => some (a.construct v)
            | Option.none => some (PyVal.str v)
          | Option.none => Option.none
      | Option.none => Option.none)) := by
  have hcond : ¬ (hashTruthy (st.hash (key p cls.name k) DELETED) = true) := by
    rw [ht]
    exact Bool.false_ne_true
  exact if_neg hcond

theorem nextIdInt_delete (p : Persistent) (cls : Schema) (o : Obj) (st : Store) :
    nextIdInt p cls (delete p cls o st).fst = nextIdInt p cls st := by
  rw [nextIdInt, nextIdInt, get_last_insert_id, get_last_insert_id, delete_kv]

/-! The assigned ids of a mixed sequence of fresh saves and deletes. -/

theorem execOps_ids (p : Persistent) (cls : Schema) :
    ∀ ops st, (execOps p cls ops st).fst =
      idsFrom (nextIdInt p cls st) (countSaves ops) := by
  intro ops
  induction ops with
  | nil => intro st; rfl
  | cons op rest ih =>
    intro st
    cases op with
    | saveNew o =>
      simp only [execOps, countSaves]
      rw [idsFrom]
      have hid : Obj.id (setVal o "id" PyVal.none) = PyVal.none := by
        simp [setVal, Obj.id]
      have hf := save_fresh_id p cls (setVal o "id" PyVal.none) st hid
      rw [ih, hf.1]
      have hnext : nextIdInt p cls (save p cls (setVal o "id" PyVal.none) st).store =
          nextIdInt p cls st + 1 := by
        rw [nextIdInt, hf.2]
      rw [hnext]
    | del o =>
      simp only [execOps, countSaves]
      rw [ih, nextIdInt_delete]

theorem findByScan_eq (p : Persistent) (cls : Schema) (c v : String) (st : Store) :
    ∀ fuel i, findByScan p cls c v st i fuel =
      (match (List.range' i fuel).find?
          (fun j => st.hash (key p cls.name (toString j)) c == some v) with
       | some j => load p cls (toString j) st
       | Option.none => Option.none) := by
  intro fuel
  induction fuel with
  | zero => intro i; rfl
  | succ f ih =>
    intro i
    rw [findByScan]
    have hr : List.range' i (f + 1) = i :: List.range' (i + 1) f := rfl
    rw [hr, List.find?_cons]
    by_cases h : st.hash (key p cls.name (toString i)) c = some v
    · rw [if_pos h]
      have hp : (st.hash (key p cls.name (toString i)) c == some v) = true := by
        rw [h]
        exact beq_self_eq_true (some v)
      rw [hp]
    · rw [if_neg h]
      have hp : (st.hash (key p cls.name (toString i)) c == some v) = false :=
        beq_eq_false_iff_ne.mpr h
      rw [hp]
      exact ih (i + 1)

/-- Claim C8 (corrected): `find_by(T, col, v)` scans ids `0 .. max_id` and
returns the result of loading the lowest id whose raw stored field `col`
equals `v` -- the matching record when it is not tombstoned, but not-found
when that lowest matching record is tombstoned -- and returns not-found when
the counter is absent or no id in range matches. -/
theorem find_by_first_raw_match (p : Persistent) (cls : Schema) (c v : String)
    (st : Store) :
    find_by p cls c v st =
      (match get_max_id p cls st with
       | Option.none => Option.none
       | some m =>
         match (List.range (m + 1).toNat).find?
             (fun j => st.hash (key p cls.name (toString j)) c == some v) with
         | some j => load p cls (toString j) st
         | Option.none => Option.none) := by
  cases hmax : get_max_id p cls st with
  | none => simp [find_by, hmax]
  | some m =>
    simp only [find_by, hmax]
    rw [findByScan_eq, List.range_eq_range']

/-- Counterexample to C8 as stated: records `"0"` (tombstoned) and `"1"`
(live) both store `name = "x"`; the lowest matching id is 0, but `find_by`
returns not-found (it loads the tombstoned record 0) instead of a matching
record. -/
theorem find_by_first_raw_match_counterexample :
    itemSave2.ok = true ∧
    itemSave2.store.hash (key exP "Item" "0") "name" = some "x" ∧
    itemSave2.store.hash (key exP "Item" "1") "name" = some "x" ∧
    (load exP Item "1" itemSave2.store).isSome = true ∧
    get_max_id exP Item itemSave2.store = some 1 ∧
    find_by exP Item "name" "x" itemSave2.store = Option.none :=
  ⟨rfl, rfl, rfl, rfl, rfl, rfl⟩

/-- Claim C10 (confirmed): when an entity type declares a primary key and
`ignore_primary_key` is false, `load_all` yields exactly the same sequence
whatever `reverse` flag or explicit range is supplied: the primary-key-ordered
path ignores both and considers all ids `0 .. max_id` in ascending raw key
order. -/
theorem load_all_pk_ignores_range_reverse (p : Persistent) (cls : Schema)
    (rng : Option (List Int)) (rev : Bool) (st : Store)
    (h : cls.primary_key.isSome = true) :
    load_all p cls rng rev false st = load_all p cls Option.none false false st := by
  obtain ⟨pk, hpk⟩ := Option.isSome_iff_exists.mp h
  cases hmax : get_max_id p cls st with
  | none => simp [load_all, hmax]
  | some m => simp [load_all, hmax, hpk]

/-- Witness for C10 at a concrete repository state: the `User` type has a
primary key, and a reversed, explicitly ranged `load_all` equals the default
call. -/
theorem load_all_pk_ignores_range_reverse_witness :
    User.primary_key.isSome = true ∧
    load_all exP User (some [5, 3]) true false exSt2 =
      load_all exP User Option.none false false exSt2 :=
  ⟨rfl, load_all_pk_ignores_range_reverse exP User (some [5, 3]) true exSt2 rfl⟩

/-- Claim C6 (corrected): an entity whose id is truthy (non-null and neither
the integer 0 nor the empty string) keeps its id across `save` -- normalized
to string form -- and the identifier counter is not consulted or changed.
The claim as stated fails for the non-null falsy id 0, see the
counterexample. -/
theorem save_preserves_truthy_id (p : Persistent) (cls : Schema) (o : Obj) (st : Store)
    (h : pyTruthy (Obj.id o) = true) :
    (save p cls o st).obj.vals "id" = PyVal.str (pyToString (Obj.id o)) ∧
    ∀ k, (save p cls o st).store.kv k = st.kv k := by
  constructor
  · rw [save_obj_eq]
    simp only [saveRecord, if_pos h]
    simp [setVal, Obj.id]
  · intro k
    rw [save_kv_eq]
    simp only [saveRecord, if_pos h]
    rw [saveColumns_kv]

/-- Witness for C6: the first saved `Item` has the truthy id `"0"`, and
re-saving it keeps that id and leaves the counter alone. -/
theorem save_preserves_truthy_id_witness :
    pyTruthy (Obj.id itemSave1.obj) = true ∧
    ((save exP Item itemSave1.obj itemSave1.store).obj.vals "id" =
        PyVal.str (pyToString (Obj.id itemSave1.obj)) ∧
      ∀ k, (save exP Item itemSave1.obj itemSave1.store).store.kv k =
        itemSave1.store.kv k) :=
  ⟨rfl, save_preserves_truthy_id exP Item itemSave1.obj itemSave1.store rfl⟩

/-- Counterexample to C6 as stated: an entity with the non-null id 0 (the
integer) is reassigned: with the `Item` counter at 5, `save` consults the
counter, assigns id `"6"` and persists 6 as the counter. -/
theorem save_preserves_id_counterexample :
    PyVal.int 0 ≠ PyVal.none ∧
    Obj.id oZero = PyVal.int 0 ∧
    (save exP Item oZero stCounter5).obj.vals "id" = PyVal.str "6" ∧
    get_last_insert_id exP "Item" (save exP Item oZero stCounter5).store = some 6 :=
  ⟨by decide, rfl, rfl, rfl⟩

/-- Claim C9 (confirmed): for every declared column, `save` writes the
serialized value into the stored record field when the (post-save) value is
non-null and removes the field when it is null, so a null value is
represented by field absence. -/
theorem save_field_presence (p : Persistent) (cls : Schema) (o : Obj) (st : Store)
    (hnd : (cls.columns.map Prod.fst).Nodup) :
    ∀ e ∈ cls.columns,
      (save p cls o st).store.hash
          (key p cls.name (pyToString (Obj.id (save p cls o st).obj))) e.fst =
        (if (save p cls o st).obj.vals e.fst = PyVal.none then Option.none
         else some (serializeCol e.snd ((save p cls o st).obj.vals e.fst))) :=
  save_hash_fields p cls o st hnd

/-- Witness for C9: saving an `Item` with every column null writes the
assigned id and removes the `name` field. -/
theorem save_field_presence_witness :
    (Item.columns.map Prod.fst).Nodup ∧
    (∀ e ∈ Item.columns,
      (save exP Item oAllNull emptyStore).store.hash
          (key exP Item.name
            (pyToString (Obj.id (save exP Item oAllNull emptyStore).obj))) e.fst =
        (if (save exP Item oAllNull emptyStore).obj.vals e.fst = PyVal.none
         then Option.none
         else some (serializeCol e.snd
           ((save exP Item oAllNull emptyStore).obj.vals e.fst)))) ∧
    (save exP Item oAllNull emptyStore).store.hash (key exP "Item" "0") "name" =
      Option.none ∧
    (save exP Item oAllNull emptyStore).store.hash (key exP "Item" "0") "id" =
      some "0" :=
  ⟨by simp [Item], save_field_presence exP Item oAllNull emptyStore (by simp [Item]),
    rfl, rfl⟩

/-- Claim C3 (confirmed): `update_id` assigns id 0 when the counter is
absent and `n + 1` when it holds `n`, persisting the new id as the counter;
hence a sequence of saves on fresh entities (id unset) receives the ids
0, 1, 2, ... with no repeats and no gaps, even when deletes of other
entities are interleaved. -/
theorem update_id_spec_and_sequential_ids (p : Persistent) (cls : Schema) :
    (∀ o st,
      (get_last_insert_id p cls.name st = Option.none →
        update_id p cls o st = (setVal o "id" (PyVal.int 0), set_id p cls.name 0 st)) ∧
      ∀ n, get_last_insert_id p cls.name st = some n →
        update_id p cls o st =
          (setVal o "id" (PyVal.int (n + 1)), set_id p cls.name (n + 1) st)) ∧
    ∀ ops st, get_last_insert_id p cls.name st = Option.none →
      (execOps p cls ops st).fst = idsFrom 0 (countSaves ops) := by
  constructor
  · intro o st
    constructor
    · intro h
      simp [update_id, h]
    · intro n h
      simp [update_id, h]
  · intro ops st h
    rw [execOps_ids]
    have hz : nextIdInt p cls st = 0 := by simp [nextIdInt, h]
    rw [hz]

/-- Witness for C3: two fresh saves with a delete in between receive the ids
`"0"` and `"1"`. -/
theorem update_id_spec_and_sequential_ids_witness :
    get_last_insert_id exP "Item" emptyStore = Option.none ∧
    (execOps exP Item [Op.saveNew ia, Op.del ia, Op.saveNew ia] emptyStore).fst =
      idsFrom 0 (countSaves [Op.saveNew ia, Op.del ia, Op.saveNew ia]) ∧
    idsFrom 0 (countSaves [Op.saveNew ia, Op.del ia, Op.saveNew ia]) =
      [PyVal.str "0", PyVal.str "1"] :=
  ⟨rfl,
    (update_id_spec_and_sequential_ids exP Item).2
      [Op.saveNew ia, Op.del ia, Op.saveNew ia] emptyStore rfl,
    rfl⟩

/-- Claim C5 (confirmed): deleting a saved entity (id a string) makes `load`
return not-found for it, leaves `get_max_id` unchanged, retains every other
stored field of every record (only the tombstone field of that one record is
written, to `"1"`), and a subsequent save of a fresh entity still receives
the next sequential id. -/
theorem delete_soft_frame (p : Persistent) (cls : Schema) (o : Obj) (st : Store)
    (s : String) (h : Obj.id o = PyVal.str s) :
    load p cls s (delete p cls o st).fst = Option.none ∧
    get_max_id p cls (delete p cls o st).fst = get_max_id p cls st ∧
    (delete p cls o st).fst.hash (key p cls.name s) DELETED = some "1" ∧
    (∀ k f, f ≠ DELETED → (delete p cls o st).fst.hash k f = st.hash k f) ∧
    (∀ k f, k ≠ key p cls.name s → (delete p cls o st).fst.hash k f = st.hash k f) ∧
    ∀ o2, (save p cls (setVal o2 "id" PyVal.none) (delete p cls o st).fst).obj.vals "id" =
      PyVal.str (toString (nextIdInt p cls st)) := by
  have hne : ¬ (Obj.id o = PyVal.none) := by
    rw [h]
    simp
  have hd : delete p cls o st =
      (st.hset (key p cls.name s) DELETED "1", true) := by
    rw [delete, if_neg hne, h]
    rfl
  refine ⟨?_, ?_, ?_, ?_, ?_, ?_⟩
  · rw [hd]
    have ht : hashTruthy ((st.hset (key p cls.name s) DELETED "1").hash
        (key p cls.name s) DELETED) = true := by
      simp [Store.hset, hashTruthy, DELETED]
    rw [load]
    rw [if_pos ht]
  · rw [get_max_id, get_max_id, hd]
    rfl
  · rw [hd]
    simp [Store.hset]
  · intro k f hf
    rw [hd]
    simp only [Store.hset]
    exact if_neg (fun hh => hf hh.2)
  · intro k f hk
    rw [hd]
    simp only [Store.hset]
    exact if_neg (fun hh => hk hh.1)
  · intro o2
    have hid : Obj.id (setVal o2 "id" PyVal.none) = PyVal.none := by
      simp [setVal, Obj.id]
    have hf := (save_fresh_id p cls (setVal o2 "id" PyVal.none)
      (delete p cls o st).fst hid).1
    rw [hf, nextIdInt_delete]

/-- Witness for C5 on the concrete `Item` scenario: deleting record `"0"`
behaves as soft deletion. -/
theorem delete_soft_frame_witness :
    Obj.id itemSave1.obj = PyVal.str "0" ∧
    (load exP Item "0" (delete exP Item itemSave1.obj itemSave1.store).fst =
        Option.none ∧
      get_max_id exP Item (delete exP Item itemSave1.obj itemSave1.store).fst =
        get_max_id exP Item itemSave1.store ∧
      (delete exP Item itemSave1.obj itemSave1.store).fst.hash
          (key exP Item.name "0") DELETED = some "1" ∧
      (∀ k f, f ≠ DELETED →
        (delete exP Item itemSave1.obj itemSave1.store).fst.hash k f =
          itemSave1.store.hash k f) ∧
      (∀ k f, k ≠ key exP Item.name "0" →
        (delete exP Item itemSave1.obj itemSave1.store).fst.hash k f =
          itemSave1.store.hash k f) ∧
      ∀ o2, (save exP Item (setVal o2 "id" PyVal.none)
          (delete exP Item itemSave1.obj itemSave1.store).fst).obj.vals "id" =
        PyVal.str (toString (nextIdInt exP Item itemSave1.store))) :=
  ⟨rfl, delete_soft_frame exP Item itemSave1.obj itemSave1.store "0" rfl⟩

/-- Claim C7 (corrected): `load` returns not-found exactly when the stored
record's tombstone field holds a truthy (nonempty) value; otherwise it
returns an entity whose declared columns take the decoded stored value when
the field is present (and not the reserved name `self`) and the column
default when absent.  In particular an id under which nothing was ever
stored does NOT load as not-found: it loads as a default-constructed entity
(see the counterexample). -/
theorem load_not_found_iff_tombstoned (p : Persistent) (cls : Schema) (k : String)
    (st : Store) (hnd : (cls.columns.map Prod.fst).Nodup) :
    (load p cls k st = Option.none ↔
      hashTruthy (st.hash (key p cls.name k) DELETED) = true) ∧
    (hashTruthy (st.hash (key p cls.name k) DELETED) = false →
      ∃ r, load p cls k st = some r ∧
        ∀ e ∈ cls.columns, r.vals e.fst =
          (match st.hash (key p cls.name k) e.fst with
           | some v =>
             if e.fst = "self" then e.snd.default
             else
               match e.snd.type with
               | some a => a.construct v
               | Option.none => PyVal.str v
           | Option.none => e.snd.default)) := by
  by_cases ht : hashTruthy (st.hash (key p cls.name k) DELETED) = true
  · constructor
    · constructor
      · intro _
        exact ht
      · intro _
        exact if_pos ht
    · intro hf
      rw [ht] at hf
      exact Bool.noConfusion hf
  · have ht' : hashTruthy (st.hash (key p cls.name k) DELETED) = false := by
      cases hb : hashTruthy (st.hash (key p cls.name k) DELETED)
      · rfl
      · exact absurd hb ht
    constructor
    · constructor
      · intro hl
        rw [load_some p cls k st ht'] at hl
        exact Option.noConfusion hl
      · intro hc
        exact absurd hc ht
    · intro _
      refine ⟨_, load_some p cls k st ht', ?_⟩
      intro e he
      rw [instantiate_vals cls _ e hnd he]
      cases hv : st.hash (key p cls.name k) e.fst with
      | none => rfl
      | some v =>
        by_cases hs : e.fst = "self"
        · simp [hs]
        · simp only [if_neg hs]
          rw [find?_eq_of_nodup cls.columns hnd e he]
          cases htype : e.snd.type with
          | none => simp [htype]
          | some a => simp [htype]

/-- Counterexample to C7 as stated: in the empty store nothing was ever
stored under id `"5"`, yet `load` returns an entity (default-constructed)
rather than not-found. -/
theorem load_not_found_counterexample :
    emptyStore.hash (key exP "User" "5") "id" = Option.none ∧
    (load exP User "5" emptyStore).isSome = true :=
  ⟨rfl, rfl⟩

/-- Witness for C7 at a concrete state: on the store holding the saved
`Item` record `"0"`, a load of a missing id is some and follows the
stated field/default description. -/
theorem load_not_found_iff_tombstoned_witness :
    (Item.columns.map Prod.fst).Nodup ∧
    ((load exP Item "0" itemSave1.store = Option.none ↔
      hashTruthy (itemSave1.store.hash (key exP Item.name "0") DELETED) = true) ∧
    (hashTruthy (itemSave1.store.hash (key exP Item.name "0") DELETED) = false →
      ∃ r, load exP Item "0" itemSave1.store = some r ∧
        ∀ e ∈ Item.columns, r.vals e.fst =
          (match itemSave1.store.hash (key exP Item.name "0") e.fst with
           | some v =>
             if e.fst = "self" then e.snd.default
             else
               match e.snd.type with
               | some a => a.construct v
               | Option.none => PyVal.str v
           | Option.none => e.snd.default))) :=
  ⟨by simp [Item],
    load_not_found_iff_tombstoned exP Item "0" itemSave1.store (by simp [Item])⟩

/-- Claim C1 (corrected): whenever the default `load_all` returns without
raising (in particular after any sequence of successful saves), the yielded
loads follow the id/raw-key pairs sorted in non-decreasing LEXICOGRAPHIC
order of the raw serialized primary-key string, with ties between equal raw
keys broken stably by ascending id; the yielded sequence is a permutation of
the loads of all ids `0 .. max_id`.  The order is NOT the semantic order of
the decoded key values (see the counterexample). -/
theorem load_all_primary_key_order (p : Persistent) (cls : Schema) (pk : String)
    (st : Store) (m : Int) (l : List (Option Obj))
    (hpk : cls.primary_key = some pk)
    (hm : get_max_id p cls st = some m)
    (hl : load_all p cls Option.none false false st = some l) :
    ∃ ps, sortByKey Prod.snd (enumFromN 0 (keysScan p cls pk false st)) = some ps ∧
      l = ps.map (fun q => load p cls (toString q.fst) st) ∧
      List.Pairwise goodPair ps ∧
      List.Perm ps (enumFromN 0 (keysScan p cls pk false st)) := by
  simp only [load_all, hm, hpk, load_all_only_keys] at hl
  cases hs : sortByKey Prod.snd (enumFromN 0 (keysScan p cls pk false st)) with
  | none =>
    rw [hs] at hl
    cases hl
  | some ps =>
    rw [hs] at hl
    refine ⟨ps, rfl, (Option.some.inj hl).symm, ?_, ?_⟩
    · exact sortByKey_pairwise _ ps hs (enumFromN_pairwise 0 _)
    · exact sortByKey_perm _ ps hs

/-- Claim C2 (corrected): after a successful save of an entity whose type
declares a primary key, the sorted-index list holds exactly one entry per id
`0 .. max_id` (a successful rebuild implies no record is tombstoned), ordered
by ascending raw serialized primary-key string with ties stable by id, each
entry being the string form of the loaded record's id value; the previous
index contents do not survive (the list equals exactly the freshly pushed
entries).  The order is lexicographic on the serialized key, not the
semantic order of decoded keys (see the counterexample). -/
theorem save_sorted_index_rebuild (p : Persistent) (cls : Schema) (pk : String)
    (o : Obj) (st : Store) (m : Int)
    (hpk : cls.primary_key = some pk)
    (hm : get_max_id p cls (saveRecord p cls o st).snd = some m)
    (hok : (save p cls o st).ok = true) :
    ∃ ps, sortByKey Prod.snd
        (enumFromN 0 (keysScan p cls pk false (saveRecord p cls o st).snd)) = some ps ∧
      List.Pairwise goodPair ps ∧
      List.Perm (ps.map Prod.fst) (List.range (m + 1).toNat) ∧
      (save p cls o st).store.lst (key p cls.name SORTED) =
        ps.map (fun q => loadedIdStr p cls (saveRecord p cls o st).snd q.fst) := by
  cases hla : load_all p cls Option.none false false
      ((saveRecord p cls o st).snd.delKey (key p cls.name SORTED)) with
  | none =>
    have hfalse : (save p cls o st).ok = false := by
      simp [save, hpk, hla]
    rw [hfalse] at hok
    exact Bool.noConfusion hok
  | some items =>
    have hla2 : load_all p cls Option.none false false (saveRecord p cls o st).snd =
        some items := by
      rw [← load_all_delKey p cls Option.none false false (key p cls.name SORTED)
        (saveRecord p cls o st).snd]
      exact hla
    simp only [load_all, hm, hpk, load_all_only_keys] at hla2
    cases hs : sortByKey Prod.snd
        (enumFromN 0 (keysScan p cls pk false (saveRecord p cls o st).snd)) with
    | none =>
      rw [hs] at hla2
      cases hla2
    | some ps =>
      rw [hs] at hla2
      have hitems : items =
          ps.map (fun q => load p cls (toString q.fst) (saveRecord p cls o st).snd) :=
        (Option.some.inj hla2).symm
      cases hrp : rebuildPush (key p cls.name SORTED) items
          ((saveRecord p cls o st).snd.delKey (key p cls.name SORTED)) with
      | mk st4 ok4 =>
        have hst4 : (save p cls o st).store = st4 := by
          simp [save, hpk, hla, hrp]
        have hok4 : ok4 = true := by
          have hx : (save p cls o st).ok = ok4 := by
            simp [save, hpk, hla, hrp]
          rw [hx] at hok
          exact hok
        obtain ⟨objs, hobjs, hlst⟩ := rebuildPush_ok _ items _ st4 (by rw [hrp, hok4])
        refine ⟨ps, rfl, ?_, ?_, ?_⟩
        · exact sortByKey_pairwise _ ps hs (enumFromN_pairwise 0 _)
        · have hperm := (sortByKey_perm _ ps hs).map Prod.fst
          rw [enumFromN_map_fst, keysScan_length p cls pk _ m hm,
            ← List.range_eq_range'] at hperm
          exact hperm
        · rw [hst4, hlst, delKey_lst_self]
          rw [hitems] at hobjs
          rw [List.nil_append]
          exact map_load_entries p cls (saveRecord p cls o st).snd ps objs hobjs

/-- Counterexample to C1 as stated: two successful saves of `User` records
with integer primary keys 9 and 10 (ids 0 and 1); the default `load_all`
yields the key-10 record before the key-9 record, because the sort compares
the raw serialized strings and `"10" < "9"` lexicographically, so the
decoded key sequence `[10, 9]` is not non-decreasing. -/
theorem load_all_primary_key_order_counterexample :
    exSave1.ok = true ∧ exSave2.ok = true ∧
    (load_all exP User Option.none false false exSt2).isSome = true ∧
    exL.map ageVal = [PyVal.int 10, PyVal.int 9] ∧
    intLeChain (exL.map ageVal) = false :=
  ⟨rfl, rfl, rfl, rfl, rfl⟩

/-- Witness for C1 on the two-record `User` store. -/
theorem load_all_primary_key_order_witness :
    User.primary_key = some "age" ∧
    get_max_id exP User exSt2 = some 1 ∧
    load_all exP User Option.none false false exSt2 = some exL ∧
    (∃ ps, sortByKey Prod.snd (enumFromN 0 (keysScan exP User "age" false exSt2)) =
        some ps ∧
      exL = ps.map (fun q => load exP User (toString q.fst) exSt2) ∧
      List.Pairwise goodPair ps ∧
      List.Perm ps (enumFromN 0 (keysScan exP User "age" false exSt2))) :=
  ⟨rfl, rfl, rfl, load_all_primary_key_order exP User "age" exSt2 1 exL rfl rfl rfl⟩

/-- Counterexample to C2 as stated: after the same two successful saves the
sorted index is `["1", "0"]`, whose records carry the primary keys 10 and 9:
the index is ordered by the serialized strings (`"10" < "9"`), not by
ascending primary-key value. -/
theorem save_sorted_index_counterexample :
    exSave1.ok = true ∧ exSave2.ok = true ∧
    exSt2.lst (key exP "User" SORTED) = ["1", "0"] ∧
    idxAges exSt2 = [PyVal.int 10, PyVal.int 9] ∧
    intLeChain (idxAges exSt2) = false :=
  ⟨rfl, rfl, rfl, rfl, rfl⟩

/-- Witness for C2 on the second concrete save. -/
theorem save_sorted_index_rebuild_witness :
    User.primary_key = some "age" ∧
    get_max_id exP User (saveRecord exP User u10 exSt1).snd = some 1 ∧
    (save exP User u10 exSt1).ok = true ∧
    (∃ ps, sortByKey Prod.snd
        (enumFromN 0 (keysScan exP User "age" false (saveRecord exP User u10 exSt1).snd)) =
        some ps ∧
      List.Pairwise goodPair ps ∧
      List.Perm (ps.map Prod.fst) (List.range ((1 : Int) + 1).toNat) ∧
      (save exP User u10 exSt1).store.lst (key exP User.name SORTED) =
        ps.map (fun q => loadedIdStr exP User (saveRecord exP User u10 exSt1).snd q.fst)) :=
  ⟨rfl, rfl, rfl, save_sorted_index_rebuild exP User "age" u10 exSt1 1 rfl rfl rfl⟩

/-- Claim C4 (corrected): for an entity all of whose declared columns are
typed, non-null after the save, and whose adapters round-trip on the saved
values, `save` immediately followed by `load` at the entity's id returns an
entity with equal declared column values -- PROVIDED the stored record at
that id carries no tombstone field.  Re-saving a previously deleted entity
violates the claim as stated, because `save` never clears the tombstone (see
the counterexample). -/
theorem save_load_roundtrip (p : Persistent) (cls : Schema) (o : Obj) (st : Store)
    (hnd : (cls.columns.map Prod.fst).Nodup)
    (hself : ∀ e ∈ cls.columns, e.fst ≠ "self")
    (hnn : ∀ e ∈ cls.columns, (save p cls o st).obj.vals e.fst ≠ PyVal.none)
    (hrt : ∀ e ∈ cls.columns, ∃ a, e.snd.type = some a ∧
      a.construct (a.serialize ((save p cls o st).obj.vals e.fst)) =
        (save p cls o st).obj.vals e.fst)
    (htomb : hashTruthy ((save p cls o st).store.hash
        (key p cls.name (pyToString (Obj.id (save p cls o st).obj))) DELETED) = false) :
    ∃ r, load p cls (pyToString (Obj.id (save p cls o st).obj)) (save p cls o st).store =
        some r ∧
      ∀ e ∈ cls.columns, r.vals e.fst = (save p cls o st).obj.vals e.fst := by
  refine ⟨_, load_some p cls _ _ htomb, ?_⟩
  intro e he
  rw [instantiate_vals cls _ e hnd he]
  obtain ⟨a, hat, har⟩ := hrt e he
  have hfield := save_hash_fields p cls o st hnd e he
  rw [if_neg (hnn e he)] at hfield
  rw [hfield]
  simp only [if_neg (hself e he), find?_eq_of_nodup cls.columns hnd e he, hat,
    serializeCol, Option.getD_some]
  exact har

/-- Counterexample to C4 as stated: save, delete, then re-save the same
`Item` entity (id `"0"`, all columns string-typed and round-tripping); the
re-save succeeds but the immediate load returns not-found, because the
tombstone field survives the save. -/
theorem save_load_roundtrip_counterexample :
    itemResave.ok = true ∧
    itemResave.obj.vals "id" = PyVal.str "0" ∧
    itemResave.obj.vals "name" = PyVal.str "x" ∧
    strAdapter.construct (strAdapter.serialize (PyVal.str "0")) = PyVal.str "0" ∧
    strAdapter.construct (strAdapter.serialize (PyVal.str "x")) = PyVal.str "x" ∧
    load exP Item (pyToString (Obj.id itemResave.obj)) itemResave.store = Option.none :=
  ⟨rfl, rfl, rfl, rfl, rfl, rfl⟩

/-- Witness for C4: saving a fresh `Item` into the empty store and loading
it back returns its values. -/
theorem save_load_roundtrip_witness :
    ((Item.columns.map Prod.fst).Nodup ∧
      (∀ e ∈ Item.columns, e.fst ≠ "self") ∧
      (∀ e ∈ Item.columns, (save exP Item ia emptyStore).obj.vals e.fst ≠ PyVal.none) ∧
      (∀ e ∈ Item.columns, ∃ a, e.snd.type = some a ∧
        a.construct (a.serialize ((save exP Item ia emptyStore).obj.vals e.fst)) =
          (save exP Item ia emptyStore).obj.vals e.fst) ∧
      hashTruthy ((save exP Item ia emptyStore).store.hash
        (key exP Item.name (pyToString (Obj.id (save exP Item ia emptyStore).obj)))
        DELETED) = false) ∧
    ∃ r, load exP Item (pyToString (Obj.id (save exP Item ia emptyStore).obj))
        (save exP Item ia emptyStore).store = some r ∧
      ∀ e ∈ Item.columns, r.vals e.fst = (save exP Item ia emptyStore).obj.vals e.fst := by
  have hnd : (Item.columns.map Prod.fst).Nodup := by simp [Item]
  have hself : ∀ e ∈ Item.columns, e.fst ≠ "self" := by simp [Item]
  have hnn : ∀ e ∈ Item.columns,
      (save exP Item ia emptyStore).obj.vals e.fst ≠ PyVal.none := by
    intro e he
    rcases List.mem_cons.mp he with h | h
    · rw [h]; decide
    · rcases List.mem_cons.mp h with h2 | h2
      · rw [h2]; decide
      · exact absurd h2 (List.not_mem_nil e)
  have hrt : ∀ e ∈ Item.columns, ∃ a, e.snd.type = some a ∧
      a.construct (a.serialize ((save exP Item ia emptyStore).obj.vals e.fst)) =
        (save exP Item ia emptyStore).obj.vals e.fst := by
    intro e he
    rcases List.mem_cons.mp he with h | h
    · rw [h]; exact ⟨strAdapter, rfl, rfl⟩
    · rcases List.mem_cons.mp h with h2 | h2
      · rw [h2]; exact ⟨strAdapter, rfl, rfl⟩
      · exact absurd h2 (List.not_mem_nil e)
  have htomb : hashTruthy ((save exP Item ia emptyStore).store.hash
      (key exP Item.name (pyToString (Obj.id (save exP Item ia emptyStore).obj)))
      DELETED) = false := rfl
  exact ⟨⟨hnd, hself, hnn, hrt, htomb⟩,
    save_load_roundtrip exP Item ia emptyStore hnd hself hnn hrt htomb⟩

end Redisorm
